import Mathlib

/-!
Shallow embedding of the Notes CRUD controller (src/unnamed/part_000) of
the best-city-backend-task repository.

Modelling choices, all taken from the source file:
* The module-level mutable state `let notes = []; let nextId = 1` becomes
  the `Store` structure, threaded explicitly through every operation.
* Timestamps: the source calls `new Date().toISOString()`; we model the
  clock reading of one handler invocation as a single natural number `now`
  passed to the operation (the two calls inside `createNote` happen in the
  same synchronous handler and are modelled as one instant).
* Request-body fields `title`/`content` are JavaScript values that may be
  `undefined`; they become `Option String`, with `none` for absent.
  The check `if (!title || !content)` (JS falsiness: undefined or the
  empty string) becomes `jsFalsy`.
* Path parameter `id` goes through `parseInt`; we model the already-parsed
  result as `Option Nat`, with `none` for NaN (an unparseable identifier),
  which `===`-matches no stored id, exactly as NaN does in the source.
* Handlers answer 400/404 via early returns; they become `Except ApiError`.
  The catch-all 500 branches are dead code for the pure array operations
  involved and are not modelled.
-/

namespace NotesApi

/-- Emulates a Note record as built by `createNote` in the source:
id, title, content, createdAt, updatedAt. -/
structure Note where
  id : Nat
  title : String
  content : String
  createdAt : Nat
  updatedAt : Nat
  deriving Repr, DecidableEq

/-- Emulates the module-level state of the controller:
`let notes = []` and `let nextId = 1`. -/
structure Store where
  notes : List Note
  nextId : Nat
  deriving Repr, DecidableEq

/-- Emulates the initial module state: empty array, counter at 1. -/
def Store.init : Store := { notes := [], nextId := 1 }

/-- Emulates the two error responses the handlers produce besides the
catch-all: 400 with a validation message, and 404 not-found. -/
inductive ApiError where
  | validation (msg : String)
  | notFound (msg : String)
  deriving Repr, DecidableEq

/-- Emulates JavaScript falsiness of an optional string, as used in
`if (!title || !content)`: `undefined` and `""` are falsy. -/
def jsFalsy : Option String → Bool
  | none => true
  | some s => s == ""

/-- Emulates `exports.createNote`: validate `!title || !content`, build the
new note with `id = nextId++`, both timestamps at `now`, push it, and return
it with the updated state. -/
def createNote (title content : Option String) (now : Nat) (s : Store) :
    Except ApiError (Note × Store) :=
  if jsFalsy title || jsFalsy content then
    .error (.validation "Title and content are required")
  else
    let newNote : Note :=
      { id := s.nextId
        title := title.getD ""
        content := content.getD ""
        createdAt := now
        updatedAt := now }
    .ok (newNote, { notes := s.notes ++ [newNote], nextId := s.nextId + 1 })

/-- Emulates `exports.getAllNotes`: always succeeds, returning
`count = notes.length` and `data = notes`. -/
def getAllNotes (s : Store) : Nat × List Note :=
  (s.notes.length, s.notes)

/-- Emulates the match test `n.id === parseInt(id)`: NaN (`pid = none`)
matches nothing. -/
def noteMatches (pid : Option Nat) (n : Note) : Bool :=
  pid == some n.id

/-- Emulates `exports.getNoteById`: `notes.find` on the id match, 404 when
absent, otherwise the note unchanged. -/
def getNoteById (pid : Option Nat) (s : Store) : Except ApiError Note :=
  match s.notes.find? (noteMatches pid) with
  | none => .error (.notFound "Note not found")
  | some n => .ok n

/-- Emulates `notes.findIndex` followed by an in-place field assignment at
that index: rewrite the first note satisfying `p` with `f`, returning the
rewritten note and the new list, or `none` when `findIndex` gives -1. -/
def updateFirst (p : Note → Bool) (f : Note → Note) :
    List Note → Option (Note × List Note)
  | [] => none
  | n :: ns =>
    if p n then some (f n, f n :: ns)
    else
      match updateFirst p f ns with
      | none => none
      | some (r, ns2) => some (r, n :: ns2)

/-- Emulates `notes.findIndex` followed by `notes.splice(noteIndex, 1)[0]`:
remove the first note satisfying `p`, returning it and the remaining list,
or `none` when `findIndex` gives -1. -/
def removeFirst (p : Note → Bool) :
    List Note → Option (Note × List Note)
  | [] => none
  | n :: ns =>
    if p n then some (n, ns)
    else
      match removeFirst p ns with
      | none => none
      | some (r, ns2) => some (r, n :: ns2)

/-- Emulates the three assignments of `updateNote`'s success path:
`if (title !== undefined) ... ; if (content !== undefined) ... ;
updatedAt = now` — presence, not non-emptiness, decides overwriting. -/
def applyFields (title content : Option String) (now : Nat) (n : Note) : Note :=
  { n with
    title := title.getD n.title
    content := content.getD n.content
    updatedAt := now }

/-- Emulates `exports.updateNote`: locate by id, 404 when absent, otherwise
overwrite the provided fields in place, refresh `updatedAt`, and return the
updated note with the new state. -/
def updateNote (pid : Option Nat) (title content : Option String) (now : Nat)
    (s : Store) : Except ApiError (Note × Store) :=
  match updateFirst (noteMatches pid) (applyFields title content now) s.notes with
  | none => .error (.notFound "Note not found")
  | some (n, ns) => .ok (n, { s with notes := ns })

/-- Emulates `exports.deleteNote`: locate by id, 404 when absent, otherwise
splice the note out and return it with the new state. -/
def deleteNote (pid : Option Nat) (s : Store) :
    Except ApiError (Note × Store) :=
  match removeFirst (noteMatches pid) s.notes with
  | none => .error (.notFound "Note not found")
  | some (n, ns) => .ok (n, { s with notes := ns })

/-- Emulates one external request against the controller: the five routes
with their already-parsed inputs, clock-reading operations carrying the
instant they observe. -/
inductive Op where
  | create (title content : Option String) (now : Nat)
  | listAll
  | get (pid : Option Nat)
  | update (pid : Option Nat) (title content : Option String) (now : Nat)
  | delete (pid : Option Nat)
  deriving Repr, DecidableEq

/-- Emulates the effect of one request on the module state: a failing
handler returns early and leaves the state untouched. -/
def applyOp (op : Op) (s : Store) : Store :=
  match op with
  | .create t c now =>
    match createNote t c now s with
    | .ok (_, s2) => s2
    | .error _ => s
  | .listAll => s
  | .get _ => s
  | .update pid t c now =>
    match updateNote pid t c now s with
    | .ok (_, s2) => s2
    | .error _ => s
  | .delete pid =>
    match deleteNote pid s with
    | .ok (_, s2) => s2
    | .error _ => s

/-- Emulates a whole request trace run against a starting state. -/
def runOps (ops : List Op) (s : Store) : Store :=
  match ops with
  | [] => s
  | op :: rest => runOps rest (applyOp op s)

/-- Collects the ids handed out by the successful `create` calls of a
trace, in order of assignment. -/
def traceAssigned (ops : List Op) (s : Store) : List Nat :=
  match ops with
  | [] => []
  | op :: rest =>
    match op with
    | .create t c now =>
      match createNote t c now s with
      | .ok (n, _) => n.id :: traceAssigned rest (applyOp op s)
      | .error _ => traceAssigned rest (applyOp op s)
    | _ => traceAssigned rest (applyOp op s)

/-- Lists the clock instants a trace reads, in order (only `create` and
`update` read the clock in the source). -/
def opClocks (ops : List Op) : List Nat :=
  match ops with
  | [] => []
  | .create _ _ now :: rest => now :: opClocks rest
  | .update _ _ _ now :: rest => now :: opClocks rest
  | _ :: rest => opClocks rest

/-- States that a trace reads a weakly increasing clock, the guarantee
`new Date()` gives the single-threaded source. -/
def ClockMono (ops : List Op) : Prop :=
  (opClocks ops).Chain' (· ≤ ·)

/-- Lists the ids currently stored, in storage order. -/
def noteIds (s : Store) : List Nat :=
  s.notes.map Note.id

/-- States the id bookkeeping invariant of the module state: every stored
id is below the counter, and stored ids are strictly increasing. -/
def storeInv (s : Store) : Prop :=
  (∀ i ∈ noteIds s, i < s.nextId) ∧ (noteIds s).Pairwise (· < ·)

/-! Structural lemmas about the first-match helpers. -/

lemma updateFirst_eq_some {p : Note → Bool} {f : Note → Note} :
    ∀ {l l2 : List Note} {r : Note}, updateFirst p f l = some (r, l2) →
    ∃ l1 m l3, l = l1 ++ m :: l3 ∧ (∀ x ∈ l1, p x = false) ∧ p m = true ∧
      r = f m ∧ l2 = l1 ++ f m :: l3 := by
  intro l
  induction l with
  | nil => intro l2 r h; simp [updateFirst] at h
  | cons n ns ih =>
    intro l2 r h
    rw [updateFirst] at h
    by_cases hp : p n
    · rw [if_pos hp] at h
      simp only [Option.some.injEq, Prod.mk.injEq] at h
      exact ⟨[], n, ns, by simp, by simp, hp, h.1.symm, by simp [h.2.symm]⟩
    · rw [if_neg hp] at h
      cases hu : updateFirst p f ns with
      | none => rw [hu] at h; exact absurd h (by simp)
      | some pr =>
        obtain ⟨r2, ns2⟩ := pr
        rw [hu] at h
        simp only [Option.some.injEq, Prod.mk.injEq] at h
        obtain ⟨hr, hl2⟩ := h
        obtain ⟨l1, m, l3, hns, hnone, hpm, hrm, hns2⟩ := ih hu
        refine ⟨n :: l1, m, l3, by simp [hns], ?_, hpm, hr ▸ hrm, ?_⟩
        · intro x hx
          rcases List.mem_cons.mp hx with hx | hx
          · exact hx ▸ Bool.of_not_eq_true hp
          · exact hnone x hx
        · rw [← hl2, hns2]; simp

lemma removeFirst_eq_some {p : Note → Bool} :
    ∀ {l l2 : List Note} {r : Note}, removeFirst p l = some (r, l2) →
    ∃ l1 l3, l = l1 ++ r :: l3 ∧ (∀ x ∈ l1, p x = false) ∧ p r = true ∧
      l2 = l1 ++ l3 := by
  intro l
  induction l with
  | nil => intro l2 r h; simp [removeFirst] at h
  | cons n ns ih =>
    intro l2 r h
    rw [removeFirst] at h
    by_cases hp : p n
    · rw [if_pos hp] at h
      simp only [Option.some.injEq, Prod.mk.injEq] at h
      exact ⟨[], ns, by simp [h.1.symm], by simp, h.1 ▸ hp, by simp [h.2.symm]⟩
    · rw [if_neg hp] at h
      cases hu : removeFirst p ns with
      | none => rw [hu] at h; exact absurd h (by simp)
      | some pr =>
        obtain ⟨r2, ns2⟩ := pr
        rw [hu] at h
        simp only [Option.some.injEq, Prod.mk.injEq] at h
        obtain ⟨hr, hl2⟩ := h
        obtain ⟨l1, l3, hns, hnone, hpm, hns2⟩ := ih hu
        refine ⟨n :: l1, l3, by simp [hns, hr], ?_, hr ▸ hpm, ?_⟩
        · intro x hx
          rcases List.mem_cons.mp hx with hx | hx
          · exact hx ▸ Bool.of_not_eq_true hp
          · exact hnone x hx
        · rw [← hl2, hns2]; simp

lemma updateFirst_none {p : Note → Bool} {f : Note → Note} :
    ∀ {l : List Note}, updateFirst p f l = none ↔ ∀ x ∈ l, p x = false := by
  intro l
  induction l with
  | nil => simp [updateFirst]
  | cons n ns ih =>
    rw [updateFirst]
    by_cases hp : p n
    · simp [hp]
    · rw [if_neg hp]
      cases hu : updateFirst p f ns with
      | none =>
        simp only [hu, true_iff]
        intro x hx
        rcases List.mem_cons.mp hx with hx | hx
        · exact hx ▸ Bool.of_not_eq_true hp
        · exact (ih.mp hu) x hx
      | some pr =>
        obtain ⟨r2, ns2⟩ := pr
        refine iff_of_false (by simp) ?_
        intro hall
        obtain ⟨l1, m, l3, hns, _, hpm, _, _⟩ := updateFirst_eq_some hu
        have hm : m ∈ n :: ns := by simp [hns]
        exact absurd hpm (by simp [hall m hm])

lemma removeFirst_none {p : Note → Bool} :
    ∀ {l : List Note}, removeFirst p l = none ↔ ∀ x ∈ l, p x = false := by
  intro l
  induction l with
  | nil => simp [removeFirst]
  | cons n ns ih =>
    rw [removeFirst]
    by_cases hp : p n
    · simp [hp]
    · rw [if_neg hp]
      cases hu : removeFirst p ns with
      | none =>
        simp only [hu, true_iff]
        intro x hx
        rcases List.mem_cons.mp hx with hx | hx
        · exact hx ▸ Bool.of_not_eq_true hp
        · exact (ih.mp hu) x hx
      | some pr =>
        obtain ⟨r2, ns2⟩ := pr
        refine iff_of_false (by simp) ?_
        intro hall
        obtain ⟨l1, l3, hns, _, hpm, _⟩ := removeFirst_eq_some hu
        have hm : r2 ∈ n :: ns := by simp [hns]
        exact absurd hpm (by simp [hall r2 hm])

/-! Characterizations of the four mutating or searching handlers. -/

lemma createNote_ok {t c : Option String} {now : Nat} {s : Store} {n : Note}
    {s2 : Store} (h : createNote t c now s = .ok (n, s2)) :
    n = { id := s.nextId, title := t.getD "", content := c.getD "",
          createdAt := now, updatedAt := now }
    ∧ s2 = { notes := s.notes ++ [n], nextId := s.nextId + 1 }
    ∧ jsFalsy t = false ∧ jsFalsy c = false := by
  unfold createNote at h
  by_cases hv : jsFalsy t || jsFalsy c
  · rw [if_pos hv] at h; exact absurd h (by simp)
  · rw [if_neg hv] at h
    simp only [Except.ok.injEq, Prod.mk.injEq] at h
    rcases Bool.or_eq_false_iff.mp (Bool.of_not_eq_true hv) with ⟨h1, h2⟩
    exact ⟨h.1.symm, by rw [← h.2, h.1], h1, h2⟩

lemma createNote_error_iff {t c : Option String} {now : Nat} {s : Store} :
    createNote t c now s = .error (.validation "Title and content are required")
      ↔ (jsFalsy t = true ∨ jsFalsy c = true) := by
  unfold createNote
  by_cases hv : jsFalsy t || jsFalsy c
  · rw [if_pos hv]
    exact iff_of_true rfl (Bool.or_eq_true_iff.mp hv)
  · rw [if_neg hv]
    refine iff_of_false (by simp) ?_
    intro hor
    exact hv (Bool.or_eq_true_iff.mpr hor)

lemma updateNote_ok {pid : Option Nat} {t c : Option String} {now : Nat}
    {s : Store} {n : Note} {s2 : Store}
    (h : updateNote pid t c now s = .ok (n, s2)) :
    ∃ l1 m l3, s.notes = l1 ++ m :: l3
      ∧ (∀ x ∈ l1, noteMatches pid x = false) ∧ noteMatches pid m = true
      ∧ n = applyFields t c now m
      ∧ s2 = { s with notes := l1 ++ applyFields t c now m :: l3 } := by
  unfold updateNote at h
  cases hu : updateFirst (noteMatches pid) (applyFields t c now) s.notes with
  | none => rw [hu] at h; exact absurd h (by simp)
  | some pr =>
    obtain ⟨r, ns⟩ := pr
    rw [hu] at h
    simp only [Except.ok.injEq, Prod.mk.injEq] at h
    obtain ⟨l1, m, l3, hdec, hnone, hpm, hr, hns⟩ := updateFirst_eq_some hu
    exact ⟨l1, m, l3, hdec, hnone, hpm, h.1 ▸ hr, by rw [← h.2, hns]⟩

lemma updateNote_error_iff {pid : Option Nat} {t c : Option String} {now : Nat}
    {s : Store} :
    updateNote pid t c now s = .error (.notFound "Note not found")
      ↔ ∀ x ∈ s.notes, noteMatches pid x = false := by
  unfold updateNote
  cases hu : updateFirst (noteMatches pid) (applyFields t c now) s.notes with
  | none => exact iff_of_true rfl (updateFirst_none.mp hu)
  | some pr =>
    obtain ⟨r, ns⟩ := pr
    refine iff_of_false (by simp) ?_
    intro hall
    exact absurd hu (by rw [updateFirst_none.mpr hall]; simp)

lemma deleteNote_ok {pid : Option Nat} {s : Store} {n : Note} {s2 : Store}
    (h : deleteNote pid s = .ok (n, s2)) :
    ∃ l1 l3, s.notes = l1 ++ n :: l3
      ∧ (∀ x ∈ l1, noteMatches pid x = false) ∧ noteMatches pid n = true
      ∧ s2 = { s with notes := l1 ++ l3 } := by
  unfold deleteNote at h
  cases hu : removeFirst (noteMatches pid) s.notes with
  | none => rw [hu] at h; exact absurd h (by simp)
  | some pr =>
    obtain ⟨r, ns⟩ := pr
    rw [hu] at h
    simp only [Except.ok.injEq, Prod.mk.injEq] at h
    obtain ⟨l1, l3, hdec, hnone, hpm, hns⟩ := removeFirst_eq_some hu
    exact ⟨l1, l3, h.1 ▸ hdec, hnone, h.1 ▸ hpm, by rw [← h.2, hns]⟩

lemma deleteNote_error_iff {pid : Option Nat} {s : Store} :
    deleteNote pid s = .error (.notFound "Note not found")
      ↔ ∀ x ∈ s.notes, noteMatches pid x = false := by
  unfold deleteNote
  cases hu : removeFirst (noteMatches pid) s.notes with
  | none => exact iff_of_true rfl (removeFirst_none.mp hu)
  | some pr =>
    obtain ⟨r, ns⟩ := pr
    refine iff_of_false (by simp) ?_
    intro hall
    exact absurd hu (by rw [removeFirst_none.mpr hall]; simp)

lemma getNoteById_error_iff {pid : Option Nat} {s : Store} :
    getNoteById pid s = .error (.notFound "Note not found")
      ↔ ∀ x ∈ s.notes, noteMatches pid x = false := by
  unfold getNoteById
  cases hf : s.notes.find? (noteMatches pid) with
  | none =>
    refine iff_of_true rfl ?_
    intro x hx
    exact Bool.of_not_eq_true (List.find?_eq_none.mp hf x hx)
  | some m =>
    refine iff_of_false (by simp) ?_
    intro hall
    have : noteMatches pid m = true := List.find?_some hf
    exact absurd this (by simp [hall m (List.mem_of_find?_eq_some hf)])

lemma find?_append_none {p : Note → Bool} {l l2 : List Note}
    (h : l.find? p = none) : (l ++ l2).find? p = l2.find? p := by
  induction l with
  | nil => simp
  | cons n ns ih =>
    cases hp : p n with
    | true =>
      rw [List.find?_cons_of_pos _ hp] at h
      exact absurd h (by simp)
    | false =>
      rw [List.find?_cons_of_neg _ (by simp [hp])] at h
      rw [List.cons_append, List.find?_cons_of_neg _ (by simp [hp])]
      exact ih h

/-! Counter monotonicity and the id invariant along traces. -/

lemma applyOp_nextId_le (op : Op) (s : Store) :
    s.nextId ≤ (applyOp op s).nextId := by
  cases op with
  | create t c now =>
    cases hc : createNote t c now s with
    | error e =>
      have ha : applyOp (.create t c now) s = s := by simp only [applyOp, hc]
      rw [ha]
    | ok pr =>
      obtain ⟨n, s2⟩ := pr
      obtain ⟨_, hs2, _, _⟩ := createNote_ok hc
      have ha : applyOp (.create t c now) s = s2 := by simp only [applyOp, hc]
      rw [ha, hs2]
      exact Nat.le_succ _
  | listAll => exact Nat.le.refl
  | get pid => exact Nat.le.refl
  | update pid t c now =>
    cases hc : updateNote pid t c now s with
    | error e =>
      have ha : applyOp (.update pid t c now) s = s := by
        simp only [applyOp, hc]
      rw [ha]
    | ok pr =>
      obtain ⟨n, s2⟩ := pr
      obtain ⟨l1, m, l3, _, _, _, _, hs2⟩ := updateNote_ok hc
      have ha : applyOp (.update pid t c now) s = s2 := by
        simp only [applyOp, hc]
      rw [ha, hs2]
  | delete pid =>
    cases hc : deleteNote pid s with
    | error e =>
      have ha : applyOp (.delete pid) s = s := by simp only [applyOp, hc]
      rw [ha]
    | ok pr =>
      obtain ⟨n, s2⟩ := pr
      obtain ⟨l1, l3, _, _, _, hs2⟩ := deleteNote_ok hc
      have ha : applyOp (.delete pid) s = s2 := by simp only [applyOp, hc]
      rw [ha, hs2]

lemma runOps_nextId_le (ops : List Op) (s : Store) :
    s.nextId ≤ (runOps ops s).nextId := by
  induction ops generalizing s with
  | nil => exact le_refl _
  | cons op rest ih =>
    exact le_trans (applyOp_nextId_le op s) (ih (applyOp op s))

lemma storeInv_applyOp {s : Store} (op : Op) (h : storeInv s) :
    storeInv (applyOp op s) := by
  obtain ⟨hbound, hsorted⟩ := h
  cases op with
  | create t c now =>
    cases hc : createNote t c now s with
    | error e =>
      have ha : applyOp (.create t c now) s = s := by simp only [applyOp, hc]
      rw [ha]
      exact ⟨hbound, hsorted⟩
    | ok pr =>
      obtain ⟨n, s2⟩ := pr
      obtain ⟨hn, hs2, _, _⟩ := createNote_ok hc
      have hnid : n.id = s.nextId := by rw [hn]
      have ha : applyOp (.create t c now) s = s2 := by simp only [applyOp, hc]
      rw [ha, hs2]
      constructor
      · intro i hi
        simp only [noteIds, List.map_append, List.mem_append] at hi
        rcases hi with hi | hi
        · exact Nat.lt_succ_of_lt (hbound i hi)
        · simp at hi
          rw [hi, hnid]
          exact Nat.lt_succ_self _
      · simp only [noteIds, List.map_append]
        rw [List.pairwise_append]
        refine ⟨hsorted, by simp, ?_⟩
        intro a ha b hb
        simp at hb
        rw [hb, hnid]
        exact hbound a ha
  | listAll => exact ⟨hbound, hsorted⟩
  | get pid => exact ⟨hbound, hsorted⟩
  | update pid t c now =>
    cases hc : updateNote pid t c now s with
    | error e =>
      have ha : applyOp (.update pid t c now) s = s := by
        simp only [applyOp, hc]
      rw [ha]
      exact ⟨hbound, hsorted⟩
    | ok pr =>
      obtain ⟨n, s2⟩ := pr
      obtain ⟨l1, m, l3, hdec, _, _, _, hs2⟩ := updateNote_ok hc
      have hids : noteIds s2 = noteIds s := by
        rw [hs2]
        simp only [noteIds, hdec, List.map_append, List.map_cons]
        rfl
      have hnext : s2.nextId = s.nextId := by rw [hs2]
      have ha : applyOp (.update pid t c now) s = s2 := by
        simp only [applyOp, hc]
      rw [ha]
      rw [storeInv, hids, hnext]
      exact ⟨hbound, hsorted⟩
  | delete pid =>
    cases hc : deleteNote pid s with
    | error e =>
      have ha : applyOp (.delete pid) s = s := by simp only [applyOp, hc]
      rw [ha]
      exact ⟨hbound, hsorted⟩
    | ok pr =>
      obtain ⟨n, s2⟩ := pr
      obtain ⟨l1, l3, hdec, _, _, hs2⟩ := deleteNote_ok hc
      have hsub : List.Sublist (noteIds s2) (noteIds s) := by
        rw [hs2]
        simp only [noteIds, hdec]
        exact ((List.sublist_cons_self n l3).append_left l1).map Note.id
      have hnext : s2.nextId = s.nextId := by rw [hs2]
      have ha : applyOp (.delete pid) s = s2 := by simp only [applyOp, hc]
      rw [ha]
      rw [storeInv, hnext]
      constructor
      · intro i hi
        exact hbound i (hsub.subset hi)
      · exact hsorted.sublist hsub

lemma storeInv_runOps (ops : List Op) (s : Store) (h : storeInv s) :
    storeInv (runOps ops s) := by
  induction ops generalizing s with
  | nil => exact h
  | cons op rest ih => exact ih (applyOp op s) (storeInv_applyOp op h)

lemma storeInv_init : storeInv Store.init := by
  constructor
  · intro i hi
    simp [noteIds, Store.init] at hi
  · simp [noteIds, Store.init]

lemma traceAssigned_lb (ops : List Op) (s : Store) :
    ∀ x ∈ traceAssigned ops s, s.nextId ≤ x := by
  induction ops generalizing s with
  | nil => intro x hx; simp [traceAssigned] at hx
  | cons op rest ih =>
    intro x hx
    cases op with
    | create t c now =>
      cases hc : createNote t c now s with
      | error e =>
        have ht : traceAssigned (Op.create t c now :: rest) s
            = traceAssigned rest (applyOp (Op.create t c now) s) := by
          simp only [traceAssigned, hc]
        rw [ht] at hx
        exact le_trans (applyOp_nextId_le _ s) (ih _ x hx)
      | ok pr =>
        obtain ⟨n, s2⟩ := pr
        have ht : traceAssigned (Op.create t c now :: rest) s
            = n.id :: traceAssigned rest (applyOp (Op.create t c now) s) := by
          simp only [traceAssigned, hc]
        rw [ht] at hx
        obtain ⟨hn, _, _, _⟩ := createNote_ok hc
        rcases List.mem_cons.mp hx with hx | hx
        · rw [hx, hn]
        · exact le_trans (applyOp_nextId_le _ s) (ih _ x hx)
    | listAll =>
      simp only [traceAssigned] at hx
      exact le_trans (applyOp_nextId_le Op.listAll s) (ih _ x hx)
    | get pid =>
      simp only [traceAssigned] at hx
      exact le_trans (applyOp_nextId_le (Op.get pid) s) (ih _ x hx)
    | update pid t c now =>
      simp only [traceAssigned] at hx
      exact le_trans (applyOp_nextId_le (Op.update pid t c now) s) (ih _ x hx)
    | delete pid =>
      simp only [traceAssigned] at hx
      exact le_trans (applyOp_nextId_le (Op.delete pid) s) (ih _ x hx)

lemma traceAssigned_pairwise (ops : List Op) (s : Store) :
    (traceAssigned ops s).Pairwise (· < ·) := by
  induction ops generalizing s with
  | nil => simp [traceAssigned]
  | cons op rest ih =>
    cases op with
    | create t c now =>
      cases hc : createNote t c now s with
      | error e =>
        have ht : traceAssigned (Op.create t c now :: rest) s
            = traceAssigned rest (applyOp (Op.create t c now) s) := by
          simp only [traceAssigned, hc]
        rw [ht]
        exact ih _
      | ok pr =>
        obtain ⟨n, s2⟩ := pr
        have ht : traceAssigned (Op.create t c now :: rest) s
            = n.id :: traceAssigned rest (applyOp (Op.create t c now) s) := by
          simp only [traceAssigned, hc]
        rw [ht]
        refine List.Pairwise.cons ?_ (ih _)
        intro y hy
        obtain ⟨hn, hs2, _, _⟩ := createNote_ok hc
        have h1 : (applyOp (Op.create t c now) s).nextId ≤ y :=
          traceAssigned_lb _ _ y hy
        have h2 : applyOp (Op.create t c now) s = s2 := by
          simp only [applyOp, hc]
        rw [h2, hs2] at h1
        rw [hn]
        exact h1
    | listAll => simp only [traceAssigned]; exact ih _
    | get pid => simp only [traceAssigned]; exact ih _
    | update pid t c now => simp only [traceAssigned]; exact ih _
    | delete pid => simp only [traceAssigned]; exact ih _

/-- States that every stored note has ordered timestamps, both below the
bound `t` (the last clock instant seen so far). -/
def timeBounded (s : Store) (t : Nat) : Prop :=
  ∀ n ∈ s.notes, n.createdAt ≤ n.updatedAt ∧ n.updatedAt ≤ t

lemma timeBounded_runOps :
    ∀ (ops : List Op) (s : Store) (t : Nat), timeBounded s t →
      (t :: opClocks ops).Chain' (· ≤ ·) →
      ∃ t2, timeBounded (runOps ops s) t2 := by
  intro ops
  induction ops with
  | nil => intro s t hs _; exact ⟨t, hs⟩
  | cons op rest ih =>
    intro s t hs hc
    cases op with
    | create tt cc now =>
      have hck : opClocks (Op.create tt cc now :: rest) = now :: opClocks rest :=
        rfl
      rw [hck, List.chain'_cons] at hc
      obtain ⟨htn, hc2⟩ := hc
      simp only [runOps]
      refine ih (applyOp (Op.create tt cc now) s) now ?_ hc2
      cases hcr : createNote tt cc now s with
      | error e =>
        have ha : applyOp (Op.create tt cc now) s = s := by
          simp only [applyOp, hcr]
        rw [ha]
        intro n hn
        obtain ⟨h1, h2⟩ := hs n hn
        exact ⟨h1, le_trans h2 htn⟩
      | ok pr =>
        obtain ⟨n, s2⟩ := pr
        obtain ⟨hn, hs2, _, _⟩ := createNote_ok hcr
        have ha : applyOp (Op.create tt cc now) s = s2 := by
          simp only [applyOp, hcr]
        rw [ha, hs2]
        intro m hm
        simp only [List.mem_append, List.mem_singleton] at hm
        rcases hm with hm | hm
        · obtain ⟨h1, h2⟩ := hs m hm
          exact ⟨h1, le_trans h2 htn⟩
        · rw [hm, hn]
          exact ⟨le_refl now, le_refl now⟩
    | listAll =>
      simp only [runOps]
      exact ih s t hs hc
    | get pid =>
      simp only [runOps]
      exact ih s t hs hc
    | update pid tt cc now =>
      have hck : opClocks (Op.update pid tt cc now :: rest)
          = now :: opClocks rest := rfl
      rw [hck, List.chain'_cons] at hc
      obtain ⟨htn, hc2⟩ := hc
      simp only [runOps]
      refine ih (applyOp (Op.update pid tt cc now) s) now ?_ hc2
      cases hcr : updateNote pid tt cc now s with
      | error e =>
        have ha : applyOp (Op.update pid tt cc now) s = s := by
          simp only [applyOp, hcr]
        rw [ha]
        intro n hn
        obtain ⟨h1, h2⟩ := hs n hn
        exact ⟨h1, le_trans h2 htn⟩
      | ok pr =>
        obtain ⟨n, s2⟩ := pr
        obtain ⟨l1, m, l3, hdec, _, _, _, hs2⟩ := updateNote_ok hcr
        have ha : applyOp (Op.update pid tt cc now) s = s2 := by
          simp only [applyOp, hcr]
        rw [ha, hs2]
        intro x hx
        simp only [List.mem_append, List.mem_cons] at hx
        have hmem : ∀ y, y ∈ l1 ∨ y ∈ l3 → y ∈ s.notes := by
          intro y hy
          rw [hdec]
          rcases hy with hy | hy
          · exact List.mem_append_left _ hy
          · exact List.mem_append_right _ (List.mem_cons_of_mem _ hy)
        rcases hx with hx | hx | hx
        · obtain ⟨h1, h2⟩ := hs x (hmem x (Or.inl hx))
          exact ⟨h1, le_trans h2 htn⟩
        · have hm : m ∈ s.notes := by
            rw [hdec]
            exact List.mem_append_right _ (List.mem_cons_self _ _)
          obtain ⟨h1, h2⟩ := hs m hm
          rw [hx]
          refine ⟨?_, le_refl now⟩
          calc m.createdAt ≤ m.updatedAt := h1
            _ ≤ t := h2
            _ ≤ now := htn
        · obtain ⟨h1, h2⟩ := hs x (hmem x (Or.inr hx))
          exact ⟨h1, le_trans h2 htn⟩
    | delete pid =>
      simp only [runOps]
      refine ih (applyOp (Op.delete pid) s) t ?_ hc
      cases hcr : deleteNote pid s with
      | error e =>
        have ha : applyOp (Op.delete pid) s = s := by simp only [applyOp, hcr]
        rw [ha]
        exact hs
      | ok pr =>
        obtain ⟨n, s2⟩ := pr
        obtain ⟨l1, l3, hdec, _, _, hs2⟩ := deleteNote_ok hcr
        have ha : applyOp (Op.delete pid) s = s2 := by simp only [applyOp, hcr]
        rw [ha, hs2]
        intro x hx
        simp only [List.mem_append] at hx
        refine hs x ?_
        rw [hdec]
        rcases hx with hx | hx
        · exact List.mem_append_left _ hx
        · exact List.mem_append_right _ (List.mem_cons_of_mem _ hx)

lemma updateFirst_of_find? {p : Note → Bool} {f : Note → Note} :
    ∀ {l : List Note} {m : Note}, l.find? p = some m →
      ∃ l2, updateFirst p f l = some (f m, l2) := by
  intro l
  induction l with
  | nil => intro m h; simp at h
  | cons n ns ih =>
    intro m h
    by_cases hp : p n
    · rw [List.find?_cons_of_pos _ hp] at h
      simp only [Option.some.injEq] at h
      subst h
      rw [updateFirst, if_pos hp]
      exact ⟨f n :: ns, rfl⟩
    · rw [List.find?_cons_of_neg _ (by simp [hp])] at h
      obtain ⟨l2, hl2⟩ := ih h
      rw [updateFirst, if_neg hp, hl2]
      exact ⟨n :: l2, rfl⟩

lemma noteMatches_false_iff {pid : Option Nat} {x : Note} :
    noteMatches pid x = false ↔ pid ≠ some x.id := by
  simp [noteMatches]

lemma pairwise_filter_id_len {l : List Note}
    (h : (l.map Note.id).Pairwise (· < ·)) (i : Nat) :
    (l.filter (fun n => n.id == i)).length ≤ 1 := by
  induction l with
  | nil => simp
  | cons n ns ih =>
    simp only [List.map_cons, List.pairwise_cons] at h
    obtain ⟨hlt, hrest⟩ := h
    by_cases hni : (n.id == i) = true
    · have hempty : ns.filter (fun x => x.id == i) = [] := by
        rw [List.filter_eq_nil_iff]
        intro x hx
        have hgt : n.id < x.id := hlt x.id (List.mem_map_of_mem _ hx)
        have hi : n.id = i := by simpa using hni
        simp only [beq_iff_eq]
        intro he
        rw [he, ← hi] at hgt
        exact lt_irrefl _ hgt
      rw [List.filter_cons, if_pos hni, hempty]
      simp
    · rw [List.filter_cons, if_neg hni]
      exact ih hrest

/-! Claim theorems. -/

/-- C1: along any request trace from the initial state, the ids handed out
by successful create calls are strictly increasing in assignment order —
so each successful create returns an id strictly greater than every
previously assigned id, and no id is ever reused, even after the note
bearing it has been deleted. -/
theorem c1_assigned_ids_strictly_increasing (ops : List Op) :
    (traceAssigned ops Store.init).Pairwise (· < ·)
    ∧ (traceAssigned ops Store.init).Nodup :=
  ⟨traceAssigned_pairwise ops Store.init,
    (traceAssigned_pairwise ops Store.init).imp Nat.ne_of_lt⟩

/-- C2: createNote fails with ValidationError "Title and content are
required" exactly when title or content is missing or empty; on that
failure the store is completely unchanged; the four concrete cases of the
spec all fail this way. -/
theorem c2_create_validation (t c : Option String) (now : Nat) (s : Store) :
    (createNote t c now s
        = .error (.validation "Title and content are required")
      ↔ jsFalsy t = true ∨ jsFalsy c = true)
    ∧ (jsFalsy t = true ∨ jsFalsy c = true →
        applyOp (.create t c now) s = s)
    ∧ createNote (some "") (some "x") now s
        = .error (.validation "Title and content are required")
    ∧ createNote (some "x") (some "") now s
        = .error (.validation "Title and content are required")
    ∧ createNote (some "") (some "") now s
        = .error (.validation "Title and content are required")
    ∧ createNote none (some "x") now s
        = .error (.validation "Title and content are required") := by
  refine ⟨createNote_error_iff, ?_, ?_, ?_, ?_, ?_⟩
  · intro hor
    have he : createNote t c now s
        = .error (.validation "Title and content are required") :=
      createNote_error_iff.mpr hor
    simp only [applyOp, he]
  · exact createNote_error_iff.mpr (Or.inl rfl)
  · exact createNote_error_iff.mpr (Or.inr rfl)
  · exact createNote_error_iff.mpr (Or.inl rfl)
  · exact createNote_error_iff.mpr (Or.inl rfl)

/-- Witness for C2 at a concrete input: a create with missing title on the
initial store fails and leaves it untouched. -/
theorem c2_create_validation_witness :
    applyOp (.create none (some "x") 0) Store.init = Store.init :=
  (c2_create_validation none (some "x") 0 Store.init).2.1 (Or.inl rfl)

/-- C7: getAllNotes always succeeds, its count equals the length of the
returned data, the data is the full stored sequence in insertion order,
and the empty store yields count 0. -/
theorem c7_list_count (s : Store) :
    (getAllNotes s).1 = (getAllNotes s).2.length
    ∧ (getAllNotes s).2 = s.notes
    ∧ getAllNotes Store.init = (0, []) :=
  ⟨rfl, rfl, rfl⟩

/-- C10: in every state reachable from the initial store, the stored notes
are strictly sorted by id (insertion order coincides with ascending id
order), and consequently at most one stored note matches any identifier. -/
theorem c10_reachable_sorted (ops : List Op) :
    (noteIds (runOps ops Store.init)).Pairwise (· < ·)
    ∧ ∀ i : Nat,
        ((runOps ops Store.init).notes.filter
          (fun n => n.id == i)).length ≤ 1 := by
  have hinv := storeInv_runOps ops Store.init storeInv_init
  exact ⟨hinv.2, fun i => pairwise_filter_id_len hinv.2 i⟩

/-- C3: when a stored note matches the identifier, updateNote overwrites
exactly the fields present in the input (presence, not non-emptiness — an
explicitly supplied empty string does overwrite), leaves omitted fields
untouched, always refreshes updatedAt to now even when no field is
supplied, and returns the updated note. -/
theorem c3_update_fields (pid : Option Nat) (t c : Option String) (now : Nat)
    (s : Store) (old : Note)
    (hfind : s.notes.find? (noteMatches pid) = some old) :
    ∃ s2, updateNote pid t c now s
        = .ok ({ old with
                 title := t.getD old.title
                 content := c.getD old.content
                 updatedAt := now }, s2) := by
  obtain ⟨l2, hl2⟩ :=
    updateFirst_of_find? (f := applyFields t c now) hfind
  refine ⟨{ s with notes := l2 }, ?_⟩
  unfold updateNote
  rw [hl2]
  rfl

/-- Witness for C3 at a concrete input: an explicit empty title overwrites,
the omitted content stays, and updatedAt moves to the new instant. -/
theorem c3_update_fields_witness :
    ∃ s2, updateNote (some 1) (some "") none 7
        { notes := [{ id := 1, title := "a", content := "b",
                      createdAt := 3, updatedAt := 3 }], nextId := 2 }
      = .ok ({ id := 1, title := "", content := "b",
               createdAt := 3, updatedAt := 7 }, s2) :=
  c3_update_fields (some 1) (some "") none 7
    { notes := [{ id := 1, title := "a", content := "b",
                  createdAt := 3, updatedAt := 3 }], nextId := 2 }
    { id := 1, title := "a", content := "b", createdAt := 3, updatedAt := 3 }
    rfl

/-- C4: getNoteById, updateNote and deleteNote fail with NotFoundError
"Note not found" exactly when no stored note bears the requested
identifier; on that failure the store is unchanged; an unparseable
identifier (parseInt giving NaN, modelled as none) matches nothing and so
yields the same NotFoundError rather than a separate error class. -/
theorem c4_notfound (pid : Option Nat) (t c : Option String) (now : Nat)
    (s : Store) :
    (getNoteById pid s = .error (.notFound "Note not found")
      ↔ ∀ x ∈ s.notes, pid ≠ some x.id)
    ∧ (updateNote pid t c now s = .error (.notFound "Note not found")
      ↔ ∀ x ∈ s.notes, pid ≠ some x.id)
    ∧ (deleteNote pid s = .error (.notFound "Note not found")
      ↔ ∀ x ∈ s.notes, pid ≠ some x.id)
    ∧ ((∀ x ∈ s.notes, pid ≠ some x.id) →
        applyOp (.update pid t c now) s = s ∧ applyOp (.delete pid) s = s)
    ∧ getNoteById none s = .error (.notFound "Note not found")
    ∧ updateNote none t c now s = .error (.notFound "Note not found")
    ∧ deleteNote none s = .error (.notFound "Note not found") := by
  have hmf : (∀ x ∈ s.notes, noteMatches pid x = false)
      ↔ (∀ x ∈ s.notes, pid ≠ some x.id) := by
    constructor
    · intro h x hx; exact noteMatches_false_iff.mp (h x hx)
    · intro h x hx; exact noteMatches_false_iff.mpr (h x hx)
  have hnone : ∀ x ∈ s.notes, noteMatches none x = false := by
    intro x hx; rfl
  refine ⟨getNoteById_error_iff.trans hmf, updateNote_error_iff.trans hmf,
    deleteNote_error_iff.trans hmf, ?_,
    getNoteById_error_iff.mpr hnone,
    updateNote_error_iff.mpr hnone,
    deleteNote_error_iff.mpr hnone⟩
  intro hno
  have hu : updateNote pid t c now s = .error (.notFound "Note not found") :=
    updateNote_error_iff.mpr (hmf.mpr hno)
  have hd : deleteNote pid s = .error (.notFound "Note not found") :=
    deleteNote_error_iff.mpr (hmf.mpr hno)
  constructor
  · simp only [applyOp, hu]
  · simp only [applyOp, hd]

/-- Witness for C4 at a concrete input: a never-assigned identifier leaves
the initial store unchanged under update and delete. -/
theorem c4_notfound_witness :
    applyOp (.update (some 99999) none none 0) Store.init = Store.init
    ∧ applyOp (.delete (some 99999)) Store.init = Store.init :=
  (c4_notfound (some 99999) none none 0 Store.init).2.2.2.1
    (by intro x hx; simp [Store.init] at hx)

/-- C5: deleting a note stored in a reachable state removes exactly that
note — every other note is kept unchanged and in order — returns the
removed note's full prior state, and a subsequent getNoteById on that id
fails with NotFoundError. -/
theorem c5_delete_removes (ops : List Op) (i : Nat) (m : Note) (s2 : Store)
    (h : deleteNote (some i) (runOps ops Store.init) = .ok (m, s2)) :
    m ∈ (runOps ops Store.init).notes ∧ m.id = i
    ∧ (∃ l1 l3, (runOps ops Store.init).notes = l1 ++ m :: l3
        ∧ s2.notes = l1 ++ l3)
    ∧ getNoteById (some i) s2 = .error (.notFound "Note not found") := by
  have hinv := storeInv_runOps ops Store.init storeInv_init
  obtain ⟨l1, l3, hdec, hnone, hpm, hs2⟩ := deleteNote_ok h
  have hmi : i = m.id := by simpa [noteMatches] using hpm
  have hsorted2 : (l1.map Note.id
      ++ (m.id :: l3.map Note.id)).Pairwise (· < ·) := by
    have hx := hinv.2
    rw [show noteIds (runOps ops Store.init)
        = (l1 ++ m :: l3).map Note.id by rw [noteIds, hdec]] at hx
    simpa using hx
  have hcons := (List.pairwise_append.mp hsorted2).2.1
  rw [List.pairwise_cons] at hcons
  have hl3 : ∀ x ∈ l3, m.id < x.id := by
    intro x hx
    exact hcons.1 x.id (List.mem_map_of_mem _ hx)
  refine ⟨?_, hmi.symm, ⟨l1, l3, hdec, by rw [hs2]⟩, ?_⟩
  · rw [hdec]
    exact List.mem_append_right _ (List.mem_cons_self _ _)
  · refine getNoteById_error_iff.mpr ?_
    intro x hx
    rw [hs2] at hx
    simp only [List.mem_append] at hx
    rcases hx with hx | hx
    · exact hnone x hx
    · simp only [noteMatches, beq_eq_false_iff_ne, ne_eq,
        Option.some.injEq]
      rw [hmi]
      exact Nat.ne_of_lt (hl3 x hx)

/-- Witness for C5 at a concrete input: create one note, delete it, and the
follow-up lookup fails. -/
theorem c5_delete_removes_witness :
    getNoteById (some 1) { notes := [], nextId := 2 }
      = .error (.notFound "Note not found") :=
  (c5_delete_removes [Op.create (some "a") (some "b") 0] 1
    { id := 1, title := "a", content := "b", createdAt := 0, updatedAt := 0 }
    { notes := [], nextId := 2 } rfl).2.2.2

/-- C6: a successful create on a reachable state inserts a note whose id is
the store's counter and whose createdAt and updatedAt both equal now,
appends it to the stored sequence, returns it, and an immediately
subsequent getNoteById on the returned id yields exactly that note. -/
theorem c6_create_roundtrip (ops : List Op) (t c : Option String) (now : Nat)
    (n : Note) (s2 : Store)
    (h : createNote t c now (runOps ops Store.init) = .ok (n, s2)) :
    n.id = (runOps ops Store.init).nextId ∧ n.createdAt = now
    ∧ n.updatedAt = now
    ∧ s2.notes = (runOps ops Store.init).notes ++ [n]
    ∧ getNoteById (some n.id) s2 = .ok n := by
  have hinv := storeInv_runOps ops Store.init storeInv_init
  obtain ⟨hn, hs2, _, _⟩ := createNote_ok h
  have hnid : n.id = (runOps ops Store.init).nextId := by rw [hn]
  have hfN : (runOps ops Store.init).notes.find? (noteMatches (some n.id))
      = none := by
    rw [List.find?_eq_none]
    intro x hx
    simp only [noteMatches, beq_iff_eq, Option.some.injEq]
    rw [hnid]
    exact (Nat.ne_of_lt (hinv.1 x.id (List.mem_map_of_mem _ hx))).symm
  refine ⟨hnid, by rw [hn], by rw [hn], by rw [hs2], ?_⟩
  unfold getNoteById
  rw [hs2]
  have hfull : ((runOps ops Store.init).notes ++ [n]).find?
      (noteMatches (some n.id)) = some n := by
    rw [find?_append_none hfN]
    rw [List.find?_cons_of_pos _ (by simp [noteMatches])]
  rw [hfull]

/-- Witness for C6 at a concrete input: the first create on the empty
store round-trips through getNoteById. -/
theorem c6_create_roundtrip_witness :
    getNoteById (some 1)
        { notes := [{ id := 1, title := "a", content := "b",
                      createdAt := 5, updatedAt := 5 }], nextId := 2 }
      = .ok { id := 1, title := "a", content := "b",
              createdAt := 5, updatedAt := 5 } :=
  (c6_create_roundtrip [] (some "a") (some "b") 5
    { id := 1, title := "a", content := "b", createdAt := 5, updatedAt := 5 }
    { notes := [{ id := 1, title := "a", content := "b",
                  createdAt := 5, updatedAt := 5 }], nextId := 2 }
    rfl).2.2.2.2

/-- C8: under a monotone clock (the guarantee the source's Date calls give
a single-threaded process), every note stored in any reachable state
satisfies createdAt ≤ updatedAt: create establishes it and update only
moves updatedAt forward, never below createdAt. -/
theorem c8_timestamps_ordered (ops : List Op) (h : ClockMono ops) :
    ∀ n ∈ (runOps ops Store.init).notes, n.createdAt ≤ n.updatedAt := by
  have h0 : timeBounded Store.init 0 := by
    intro n hn
    simp [Store.init] at hn
  have hch : ((0 : Nat) :: opClocks ops).Chain' (· ≤ ·) := by
    cases hcl : opClocks ops with
    | nil => simp
    | cons a l =>
      rw [List.chain'_cons]
      exact ⟨Nat.zero_le a, hcl ▸ h⟩
  obtain ⟨t2, ht2⟩ := timeBounded_runOps ops Store.init 0 h0 hch
  intro n hn
  exact (ht2 n hn).1

/-- Witness for C8 at a concrete input: after a create at instant 3 and an
update at instant 4, the surviving note's createdAt 3 is at most its
updatedAt 4. -/
theorem c8_timestamps_ordered_witness :
    ({ id := 1, title := "t", content := "b", createdAt := 3,
       updatedAt := 4 } : Note).createdAt
      ≤ ({ id := 1, title := "t", content := "b", createdAt := 3,
           updatedAt := 4 } : Note).updatedAt :=
  c8_timestamps_ordered
    [Op.create (some "a") (some "b") 3, Op.update (some 1) (some "t") none 4]
    (List.chain'_cons.mpr ⟨by norm_num, List.chain'_singleton 4⟩)
    { id := 1, title := "t", content := "b", createdAt := 3, updatedAt := 4 }
    (by decide)

/-- C9: updateNote never changes the matched note's id or createdAt, never
touches any other note, and leaves the id counter alone. -/
theorem c9_update_frame (pid : Option Nat) (t c : Option String) (now : Nat)
    (s : Store) (n : Note) (s2 : Store)
    (h : updateNote pid t c now s = .ok (n, s2)) :
    ∃ l1 old l3, s.notes = l1 ++ old :: l3 ∧ s2.notes = l1 ++ n :: l3
      ∧ n.id = old.id ∧ n.createdAt = old.createdAt
      ∧ s2.nextId = s.nextId := by
  obtain ⟨l1, m, l3, hdec, _, _, hn, hs2⟩ := updateNote_ok h
  exact ⟨l1, m, l3, hdec, by rw [hs2, hn], by rw [hn]; rfl,
    by rw [hn]; rfl, by rw [hs2]⟩

/-- Witness for C9 at a concrete input: updating the single stored note
keeps its id and createdAt and the counter. -/
theorem c9_update_frame_witness :
    ∃ l1 old l3,
      ([{ id := 1, title := "a", content := "b", createdAt := 3,
          updatedAt := 3 }] : List Note) = l1 ++ old :: l3
      ∧ ([{ id := 1, title := "t", content := "b", createdAt := 3,
            updatedAt := 4 }] : List Note)
          = l1 ++ { id := 1, title := "t", content := "b", createdAt := 3,
                    updatedAt := 4 } :: l3
      ∧ (1 : Nat) = old.id ∧ (3 : Nat) = old.createdAt
      ∧ (2 : Nat) = 2 :=
  c9_update_frame (some 1) (some "t") none 4
    { notes := [{ id := 1, title := "a", content := "b", createdAt := 3,
                  updatedAt := 3 }], nextId := 2 }
    { id := 1, title := "t", content := "b", createdAt := 3, updatedAt := 4 }
    { notes := [{ id := 1, title := "t", content := "b", createdAt := 3,
                  updatedAt := 4 }], nextId := 2 }
    rfl

end NotesApi
